import Mathlib

/-!
Verification of the contract module (contract.py): recurring-contract
billing. Contracts carry a recurrence rule (frequency, interval) anchored at
a start-period date; consumptions are generated per period and grouped into
invoices.

Dates are modelled as integer day numbers in the proleptic Gregorian
calendar (day 0 is 0000-01-01). The dateutil rrule occurrences used by the
code (DAILY, WEEKLY, MONTHLY, YEARLY, all anchored at a midnight dtstart)
fall on whole days, so collapsing datetime to date is faithful: every
datetime handled by the code is a midnight.
-/

namespace ContractSpec

/-- Proleptic Gregorian leap-year test. -/
def isLeap (y : ℤ) : Bool := (y % 4 == 0 && y % 100 != 0) || y % 400 == 0

/-- Days in a month given leap flag; months are 0-based (0 = January). -/
def monthLen (leap : Bool) (m : ℤ) : ℤ :=
  if m = 1 then (if leap then 29 else 28)
  else if m = 3 ∨ m = 5 ∨ m = 8 ∨ m = 10 then 30
  else 31

/-- Number of leap years in the interval [0, y). -/
def leapsBefore (y : ℤ) : ℤ := (y + 3) / 4 - (y + 99) / 100 + (y + 399) / 400

/-- Day number of January 1st of year y (day 0 is 0000-01-01). -/
def daysBeforeYear (y : ℤ) : ℤ := 365 * y + leapsBefore y

/-- Days before 0-based month m within a year with the given leap flag. -/
def daysBeforeMonth (leap : Bool) (m : ℤ) : ℤ :=
  (if m ≤ 0 then 0
   else if m = 1 then 31
   else if m = 2 then 59
   else if m = 3 then 90
   else if m = 4 then 120
   else if m = 5 then 151
   else if m = 6 then 181
   else if m = 7 then 212
   else if m = 8 then 243
   else if m = 9 then 273
   else if m = 10 then 304
   else 334)
  + (if leap ∧ 2 ≤ m then 1 else 0)

/-- Absolute month index: year * 12 + 0-based month. -/
def yearOfAm (am : ℤ) : ℤ := am / 12

/-- The 0-based month of an absolute month index. -/
def monthOfAm (am : ℤ) : ℤ := am % 12

/-- Length in days of the month with absolute index am. -/
def amLen (am : ℤ) : ℤ := monthLen (isLeap (yearOfAm am)) (monthOfAm am)

/-- Day number of day d (1-based) in the month with absolute index am. -/
def dayOfAm (am d : ℤ) : ℤ :=
  daysBeforeYear (yearOfAm am) + daysBeforeMonth (isLeap (yearOfAm am)) (monthOfAm am) + d - 1

/-- Day number of the calendar date y-m-d (m, d 1-based). -/
def mkDate (y m d : ℤ) : ℤ := dayOfAm (12 * y + (m - 1)) d

/-- Inverse calendar conversion: absolute month index and 1-based day of a
day number (civil-from-days algorithm, shifted to the 0000-01-01 epoch). -/
def amdOfDay (z : ℤ) : ℤ × ℤ :=
  let s := z - 60
  let era := s / 146097
  let doe := s - era * 146097
  let yoe := (doe - doe / 1460 + doe / 36524 - doe / 146096) / 365
  let y := yoe + era * 400
  let doy := doe - (365 * yoe + yoe / 4 - yoe / 100)
  let mp := (5 * doy + 2) / 153
  let d := doy - (153 * mp + 2) / 5 + 1
  let m := if mp < 10 then mp + 3 else mp - 9
  let yy := if m ≤ 2 then y + 1 else y
  (12 * yy + (m - 1), d)

/-- Recurrence frequencies accepted by the freq selection field. -/
inductive Freq
  | daily
  | weekly
  | monthly
  | yearly
deriving Repr, DecidableEq

/-- A dateutil rrule as built by the rrule property: frequency, interval and
dtstart. MONTHLY and YEARLY occurrences keep the dtstart day of month and
skip months that lack it, as dateutil does. -/
structure Rule where
  freq : Freq
  interval : ℤ
  dtstart : ℤ
deriving Repr, DecidableEq

/-- The j-th occurrence candidate of a rule; none when the candidate month
lacks the dtstart day of month (dateutil skips such months). -/
def Rule.occ (r : Rule) (j : ℕ) : Option ℤ :=
  match r.freq with
  | .daily => some (r.dtstart + (j : ℤ) * r.interval)
  | .weekly => some (r.dtstart + (j : ℤ) * (7 * r.interval))
  | .monthly =>
    let p := amdOfDay r.dtstart
    let am := p.1 + (j : ℤ) * r.interval
    if p.2 ≤ amLen am then some (dayOfAm am p.2) else none
  | .yearly =>
    let p := amdOfDay r.dtstart
    let am := p.1 + (j : ℤ) * (12 * r.interval)
    if p.2 ≤ amLen am then some (dayOfAm am p.2) else none

/-- Candidate budget for enumerating occurrences up to day b: every
frequency advances by at least one day per candidate. -/
def Rule.fuel (r : Rule) (b : ℤ) : ℕ := (b - r.dtstart).toNat + 1

/-- The rrule between(a, b) call with inc=False: occurrences strictly after
a and strictly before b, in candidate order. -/
def Rule.between (r : Rule) (a b : ℤ) : List ℤ :=
  ((List.range (r.fuel b)).filterMap r.occ).filter (fun x => a < x ∧ x < b)

/-- Bounded search for the first occurrence with index at least j that is
strictly after x. -/
def Rule.afterGo (r : Rule) (x : ℤ) : ℕ → ℕ → Option ℤ
  | 0, _ => none
  | f + 1, j =>
    match r.occ j with
    | some c => if x < c then some c else r.afterGo x f (j + 1)
    | none => r.afterGo x f (j + 1)

/-- The rrule after(x) call with inc=False: first occurrence strictly after
x. The search budget covers reaching x from dtstart plus enough candidates
to absorb skipped months. -/
def Rule.after (r : Rule) (x : ℤ) : Option ℤ :=
  r.afterGo x ((x - r.dtstart).toNat + 800) 0

/-- A contract line: only the fields consumed by the generation loop. The
unit price is carried along but never branches the control flow. -/
structure ContractLine where
  id : ℕ
  unit_price : ℚ
deriving Repr, DecidableEq

/-- A contract: recurrence fields of the RRuleMixin plus the billing dates
and lines. freq may be unset (the selection offers None). -/
structure Contract where
  party : ℕ
  company : ℕ
  currency : ℕ
  start_date : ℤ
  end_date : Option ℤ
  start_period_date : ℤ
  first_invoice_date : Option ℤ
  freq : Option Freq
  interval : Option ℤ
  lines : List ContractLine
deriving Repr, DecidableEq

/-- A contract.consumption record as filled by get_consumption. -/
structure Consumption where
  contract_line : ℕ
  start_date : ℤ
  end_date : ℤ
  init_period_date : ℤ
  end_period_date : ℤ
  invoice_date : ℤ
  invoice_line : Option ℕ
deriving Repr, DecidableEq

/-- Effective interval: rrule_values skips falsy values (None and 0), so
dateutil falls back to its default interval of 1. -/
def Contract.effInterval (c : Contract) : ℤ :=
  match c.interval with
  | none => 1
  | some k => if k = 0 then 1 else k

/-- The rrule property: rrule_values drops an unset freq, and rrule(...)
then raises TypeError because freq is a required argument. dtstart is the
start-period date (Contract.rrule_values). -/
def Contract.rrule (c : Contract) : Except String Rule :=
  match c.freq with
  | none => .error "TypeError"
  | some f => .ok { freq := f, interval := c.effInterval, dtstart := c.start_period_date }

/-- The SQL Max aggregate over a column, as used by
get_last_consumption_date: none on the empty set. -/
def sqlMax : List ℤ → Option ℤ
  | [] => none
  | a :: rest =>
    match sqlMax rest with
    | none => some a
    | some b => some (max a b)

/-- ContractLine.get_last_consumption_date: Max(end_period_date) over the
consumptions of the line. -/
def lastConsumptionDate (db : List Consumption) (lid : ℕ) : Option ℤ :=
  sqlMax ((db.filter (fun x => x.contract_line == lid)).map (fun x => x.end_period_date))

/-- The last_consumption_invoice_date function field. Its getter in the
source is wired to get_last_consumption_date (the separate
get_last_consumption_invoice_date classmethod is never referenced), so it
also returns Max(end_period_date). -/
def lastConsumptionInvoiceDate (db : List Consumption) (lid : ℕ) : Option ℤ :=
  lastConsumptionDate db lid

/-- Contract.get_invoice_date: builds a fresh rrule from the frequency of
the contract rule only (the interval is not passed, so dateutil defaults it
to 1), anchored at the previous invoice date, and takes the first
occurrence strictly after it. Reading the frequency goes through the rrule
property, so an unset freq raises; a search that finds nothing would crash
on None.date() with AttributeError. -/
def Contract.get_invoice_date (c : Contract) (last_invoice_date : ℤ) : Except String ℤ :=
  match c.freq with
  | none => .error "TypeError"
  | some f =>
    match Rule.after { freq := f, interval := 1, dtstart := last_invoice_date } last_invoice_date with
    | none => .error "AttributeError"
    | some d => .ok d

/-- The invoice-date selection inside the loop body: take the previous
invoice date forward through get_invoice_date when there is one, else fall
back to the first-invoice date, else to the decremented occurrence. -/
def loopInvoiceDate (c : Contract) (lastInv : Option ℤ) (d : ℤ) : Except String ℤ :=
  match lastInv with
  | some liv => c.get_invoice_date liv
  | none => .ok (c.first_invoice_date.getD d)

/-- The body of the for-date loop of get_consumptions, one step per
occurrence returned by between. State threaded exactly as the source does:
start (the running period start), the last invoice date and the last
consumption date local variables. The end_contract block of the source is
dead code (end_contract is the constant None) and is omitted. -/
def consumeLoop (c : Contract) (line : ContractLine) :
    List ℤ → ℤ → Option ℤ → Option ℤ → Except String (List Consumption)
  | [], _, _, _ => .ok []
  | date :: rest, start, lastInv, lastCons =>
    match loopInvoiceDate c lastInv (date - 1) with
    | .error e => .error e
    | .ok invoice_date =>
      match consumeLoop c line rest (date - 1 + 1) (some invoice_date) (some (date - 1 + 1)) with
      | .error e => .error e
      | .ok ws =>
        .ok ({ contract_line := line.id,
               start_date := if lastCons = none then c.start_date else start,
               end_date := date - 1,
               init_period_date := if lastCons = none then c.start_period_date else start,
               end_period_date := date - 1,
               invoice_date := invoice_date, invoice_line := none } :: ws)

/-- The resume start of a line: the start-period date with no history, else
two days after the recorded maximum end-period date (the source adds one
day at line 241 and a second day at line 245). -/
def resumeStart (c : Contract) (lcd : Option ℤ) : ℤ :=
  match lcd with
  | none => c.start_period_date
  | some l => l + 2

/-- The per-line part of get_consumptions: resume from the last recorded
consumption, then one consumption per occurrence of between. -/
def lineConsumptions (c : Contract) (r : Rule) (line : ContractLine)
    (db : List Consumption) (end_date : ℤ) : Except String (List Consumption) :=
  consumeLoop c line
    (r.between (resumeStart c (lastConsumptionDate db line.id)) end_date)
    (resumeStart c (lastConsumptionDate db line.id))
    (lastConsumptionInvoiceDate db line.id)
    ((lastConsumptionDate db line.id).map (fun l => l + 1))

/-- The for-line loop of get_consumptions: the rrule property is rebuilt
for every line, so a missing frequency raises at the first line. -/
def linesGo (c : Contract) (db : List Consumption) (end_date : ℤ) :
    List ContractLine → Except String (List Consumption)
  | [] => .ok []
  | l :: ls =>
    match c.rrule with
    | .error e => .error e
    | .ok r =>
      match lineConsumptions c r l db end_date with
      | .error e => .error e
      | .ok w =>
        match linesGo c db end_date ls with
        | .error e => .error e
        | .ok rest => .ok (w ++ rest)

/-- Contract.get_consumptions: the end date defaults to today when not
given; db stands for the stored consumption records the function fields
aggregate over. -/
def Contract.get_consumptions (c : Contract) (db : List Consumption) (today : ℤ)
    (end_date : Option ℤ) : Except String (List Consumption) :=
  linesGo c db (end_date.getD today) c.lines

/-- The per-contract fold of Contract.consume. -/
def consumeGo (db : List Consumption) (today : ℤ) (e : ℤ) :
    List Contract → Except String (List Consumption)
  | [] => .ok []
  | c :: cs =>
    match c.get_consumptions db today (some e) with
    | .error err => .error err
    | .ok a =>
      match consumeGo db today e cs with
      | .error err => .error err
      | .ok b => .ok (a ++ b)

/-- Contract.consume: the date argument is advanced by one day before any
contract is consumed, to make the boundary inclusive. Adding a
relativedelta to None raises TypeError, so a missing date never reaches
get_consumptions. -/
def Contract.consume (contracts : List Contract) (db : List Consumption) (today : ℤ)
    (date : Option ℤ) : Except String (List Consumption) :=
  match date with
  | none => .error "TypeError"
  | some dt => consumeGo db today (dt + 1) contracts

/-- Contract.check_start_date: a contract without a usable rrule returns
silently (the hasattr guard swallows the failure under Python 2); otherwise
the start date must lie in [start_period_date, first occurrence strictly
after start_period_date), else the start_date_not_valid user error is
raised. -/
def Contract.check_start_date (c : Contract) : Except String Unit :=
  match c.rrule with
  | .error _ => .ok ()
  | .ok r =>
    match r.after c.start_period_date with
    | none => .error "AttributeError"
    | some d =>
      if c.start_period_date ≤ c.start_date ∧ c.start_date < d then .ok ()
      else .error "start_date_not_valid"

/-- Uom.round of the host framework: round the value to the given precision
(round(number / precision) * precision, with round to the nearest
integer). -/
def uomRound (q r : ℚ) : ℚ := round (q / r) * r

/-- A consumption as seen by the invoice operation, with the context the
source reaches through contract_line.contract: party, company, currency,
unit price, the rounding of the product default uom (none when the line has
no service product, in which case the source falls back to 1) and the
resolved revenue account (none models the missing-account error paths). -/
structure ConsRec where
  id : ℕ
  party : ℕ
  company : ℕ
  currency : ℕ
  unit_price : ℚ
  unit_rounding : Option ℚ
  account_revenue : Option ℕ
  start_date : ℤ
  end_date : ℤ
  init_period_date : ℤ
  end_period_date : ℤ
  invoice_date : ℤ
  invoice_line : Option ℕ
deriving Repr, DecidableEq

/-- The encoding of the constant invoice_type out_invoice set by
get_invoice_line. -/
def out_invoice : ℕ := 0

/-- An account.invoice.line as filled by get_invoice_line, restricted to
the fields the invoice operation branches on. -/
structure InvoiceLine where
  party : ℕ
  company : ℕ
  currency : ℕ
  invoice_type : ℕ
  unit_price : ℚ
  quantity : ℚ
deriving Repr, DecidableEq

/-- Seconds of a whole-day timedelta, as total_seconds returns. -/
def daySeconds (n : ℤ) : ℚ := (n : ℚ) * 86400

/-- ContractConsumption.get_invoice_line: raises when no revenue account is
resolvable, otherwise builds the line; the quantity is the ratio of the
consumed span to the period span (in seconds), rounded to the unit
rounding, 1 when there is no unit. -/
def ConsRec.get_invoice_line (x : ConsRec) : Except String InvoiceLine :=
  match x.account_revenue with
  | none => .error "missing_account_revenue"
  | some _ =>
    let quantity := daySeconds (x.end_date - x.start_date) /
      daySeconds (x.end_period_date - x.init_period_date)
    let rounding := x.unit_rounding.getD 1
    .ok { party := x.party, company := x.company, currency := x.currency,
          invoice_type := out_invoice, unit_price := x.unit_price,
          quantity := uomRound quantity rounding }

/-- The grouping key of _group_invoice_key: party, company, currency and
invoice type of the generated line, and the invoice date of the
consumption. -/
structure GroupKey where
  party : ℕ
  company : ℕ
  currency : ℕ
  invoice_type : ℕ
  invoice_date : ℤ
deriving Repr, DecidableEq

/-- ContractConsumption._group_invoice_key on a (consumption, invoice line)
pair. -/
def group_invoice_key (p : ConsRec × InvoiceLine) : GroupKey :=
  { party := p.2.party, company := p.2.company, currency := p.2.currency,
    invoice_type := p.2.invoice_type, invoice_date := p.1.invoice_date }

/-- Lexicographic comparison of grouping keys, the order Python sorted uses
on the key tuples. -/
def GroupKey.le (a b : GroupKey) : Prop :=
  a.party < b.party ∨ (a.party = b.party ∧
  (a.company < b.company ∨ (a.company = b.company ∧
  (a.currency < b.currency ∨ (a.currency = b.currency ∧
  (a.invoice_type < b.invoice_type ∨ (a.invoice_type = b.invoice_type ∧
  a.invoice_date ≤ b.invoice_date)))))))

instance : DecidableRel GroupKey.le := fun a b => by
  unfold GroupKey.le; exact inferInstance

/-- Comparison of pairs through their grouping key. -/
def pairKeyLE (p q : ConsRec × InvoiceLine) : Prop :=
  (group_invoice_key p).le (group_invoice_key q)

instance : DecidableRel pairKeyLE := fun p q => by
  unfold pairKeyLE; exact inferInstance

/-- itertools.groupby on the image of a key function: a new group starts
whenever the key changes between neighbours. -/
def groupRuns {α K : Type} [DecidableEq K] (k : α → K) : List α → List (List α)
  | [] => []
  | a :: rest =>
    match groupRuns k rest with
    | [] => [[a]]
    | g :: gs =>
      if g.head?.map k = some (k a) then (a :: g) :: gs else [a] :: g :: gs

/-- The sort-then-groupby step of ContractConsumption.invoice. A stable
sort stands in for Python sorted. -/
def invoiceGrouping (ps : List (ConsRec × InvoiceLine)) :
    List (List (ConsRec × InvoiceLine)) :=
  groupRuns group_invoice_key (List.insertionSort pairKeyLE ps)

/-- The line-building loop of ContractConsumption.invoice: one invoice line
per consumption, stopping at the first missing-account error. -/
def buildLines : List ConsRec → Except String (List InvoiceLine)
  | [] => .ok []
  | x :: rest =>
    match x.get_invoice_line with
    | .error e => .error e
    | .ok l =>
      match buildLines rest with
      | .error e => .error e
      | .ok ls => .ok (l :: ls)

/-- The final cls.write of ContractConsumption.invoice: every consumption
points to the invoice line saved for it; saved lines receive consecutive
ids starting at nextId, in iteration order. The write is unconditional:
a previously linked consumption is relinked all the same. -/
def writeInvoiceLines (cs : List ConsRec) (nextId : ℕ) : List ConsRec :=
  match cs with
  | [] => []
  | x :: rest => { x with invoice_line := some nextId } :: writeInvoiceLines rest (nextId + 1)

/-- ContractConsumption.invoice: build one line per consumption, group the
(consumption, line) pairs by _group_invoice_key after sorting, one invoice
per group carrying the lines of the group, then write the invoice_line
links. Returns the rewritten consumptions and the created invoices as
their line lists. -/
def invoiceOp (cs : List ConsRec) (nextId : ℕ) :
    Except String (List ConsRec × List (List InvoiceLine)) :=
  match buildLines cs with
  | .error e => .error e
  | .ok ls =>
    let pairs := cs.zip ls
    let groups := invoiceGrouping pairs
    .ok (writeInvoiceLines cs nextId, groups.map (fun g => g.map (fun p => p.2)))

/-- The invisible condition of the invoice button: Bool(Eval(invoice_line)).
This is the only guard against invoicing an already linked consumption. -/
def invoiceButtonInvisible (x : ConsRec) : Bool := x.invoice_line.isSome

instance : IsTotal (ConsRec × InvoiceLine) pairKeyLE :=
  ⟨fun p q => by unfold pairKeyLE GroupKey.le; omega⟩

instance : IsTrans (ConsRec × InvoiceLine) pairKeyLE :=
  ⟨fun p q s hpq hqs => by
    unfold pairKeyLE GroupKey.le at hpq hqs ⊢; omega⟩

/-! Concrete fixtures for the evaluated scenarios. -/

/-- Fixture: a single contract line. -/
def lineA : ContractLine := { id := 1, unit_price := 10 }

/-- Fixture: a validated monthly contract starting 2020-01-01. -/
def conMonthly : Contract :=
  { party := 1, company := 1, currency := 1, start_date := mkDate 2020 1 1,
    end_date := none, start_period_date := mkDate 2020 1 1,
    first_invoice_date := none, freq := some .monthly, interval := none,
    lines := [lineA] }

/-- Fixture: the rule the rrule property builds for conMonthly. -/
def ruleMonthly : Rule :=
  { freq := .monthly, interval := 1, dtstart := mkDate 2020 1 1 }

/-- Fixture: the January consumption generated for conMonthly. -/
def consJan : Consumption :=
  { contract_line := 1, start_date := mkDate 2020 1 1, end_date := mkDate 2020 1 31,
    init_period_date := mkDate 2020 1 1, end_period_date := mkDate 2020 1 31,
    invoice_date := mkDate 2020 1 31, invoice_line := none }

/-- Fixture: the February consumption generated for conMonthly. -/
def consFeb : Consumption :=
  { contract_line := 1, start_date := mkDate 2020 2 1, end_date := mkDate 2020 2 29,
    init_period_date := mkDate 2020 2 1, end_period_date := mkDate 2020 2 29,
    invoice_date := mkDate 2020 3 31, invoice_line := none }

/-- Fixture: a stored consumption history ending 2020-01-31. -/
def dbJan : List Consumption := [consJan]

/-- Fixture: conMonthly with an interval of 2. -/
def conMonthly2 : Contract := { conMonthly with interval := some 2 }

/-- Fixture: conMonthly with the frequency left unset. -/
def conNoFreq : Contract := { conMonthly with freq := none }

/-- Fixture: a daily contract anchored at day 0. -/
def conDaily : Contract :=
  { party := 1, company := 1, currency := 1, start_date := 0, end_date := none,
    start_period_date := 0, first_invoice_date := none, freq := some .daily,
    interval := none, lines := [lineA] }

/-- Fixture: the consumptions of the first daily run through day 2. -/
def cs1Daily : List Consumption :=
  [{ contract_line := 1, start_date := 0, end_date := 0, init_period_date := 0,
     end_period_date := 0, invoice_date := 0, invoice_line := none },
   { contract_line := 1, start_date := 1, end_date := 1, init_period_date := 1,
     end_period_date := 1, invoice_date := 1, invoice_line := none }]

/-- Fixture: a consumption record that is already linked to invoice line 5
and spans its whole period. -/
def recLinked : ConsRec :=
  { id := 1, party := 1, company := 1, currency := 1, unit_price := 10,
    unit_rounding := none, account_revenue := some 1, start_date := 0,
    end_date := 30, init_period_date := 0, end_period_date := 30,
    invoice_date := 40, invoice_line := some 5 }

/-- Fixture: recLinked without an invoice line link. -/
def recFree : ConsRec := { recLinked with invoice_line := none }

/-- Fixture: a second free consumption with the same grouping key. -/
def recFree2 : ConsRec := { recFree with id := 2 }

/-- Fixture: the invoice line get_invoice_line derives from recLinked. -/
def lineLinked : InvoiceLine :=
  { party := 1, company := 1, currency := 1, invoice_type := out_invoice,
    unit_price := 10,
    quantity := uomRound (daySeconds (30 - 0) / daySeconds (30 - 0)) 1 }

/-! Helper lemmas. -/

/-- The per-contract fold only reads today through get_consumptions, which
ignores it when an end date is given. -/
theorem consumeGo_today_irrelevant (db : List Consumption) (e t1 t2 : ℤ) :
    ∀ cs : List Contract, consumeGo db t1 e cs = consumeGo db t2 e cs := by
  intro cs
  induction cs with
  | nil => rfl
  | cons c rest ih =>
    simp only [consumeGo]
    rw [show c.get_consumptions db t1 (some e) = c.get_consumptions db t2 (some e) from rfl,
      ih]

/-! Claim theorems. -/

/-- Claim C10: Contract.consume applies the one-day boundary advance to the
date argument unconditionally, so date=None raises TypeError before any
consumption is generated, and the default-to-today branch of
get_consumptions is unreachable through consume: the result never depends
on today. -/
theorem c10_consume_none_raises (contracts : List Contract) (db : List Consumption) :
    (∀ today : ℤ, Contract.consume contracts db today none = .error "TypeError") ∧
    (∀ today1 today2 dt : ℤ,
      Contract.consume contracts db today1 (some dt) =
        Contract.consume contracts db today2 (some dt)) := by
  refine ⟨fun _ => rfl, fun t1 t2 dt => ?_⟩
  show consumeGo db t1 (dt + 1) contracts = consumeGo db t2 (dt + 1) contracts
  exact consumeGo_today_irrelevant db (dt + 1) t1 t2 contracts

/-- Claim C4, counterexample: for a contract with an unset frequency and one
line, get_consumptions raises TypeError instead of returning normally with
no consumptions. -/
theorem c4_counterexample :
    Contract.get_consumptions conNoFreq [] 0 (some 5) = .error "TypeError" ∧
    ∀ res : List Consumption, Contract.get_consumptions conNoFreq [] 0 (some 5) ≠ .ok res := by
  refine ⟨rfl, fun res h => ?_⟩
  rw [show Contract.get_consumptions conNoFreq [] 0 (some 5) = .error "TypeError" from rfl] at h
  exact Except.noConfusion h

/-- Claim C4, amended: with a missing frequency, get_consumptions raises
TypeError at the first line (the rrule property needs freq); only a
contract without lines returns normally, with no consumptions. -/
theorem c4_missing_freq_raises (c : Contract) (db : List Consumption) (today : ℤ)
    (e : Option ℤ) (hf : c.freq = none) :
    (c.lines = [] → c.get_consumptions db today e = .ok []) ∧
    (c.lines ≠ [] → c.get_consumptions db today e = .error "TypeError") := by
  constructor
  · intro h
    unfold Contract.get_consumptions
    rw [h]
    rfl
  · intro h
    have hl : ∃ l ls, c.lines = l :: ls := by
      cases hc : c.lines with
      | nil => exact absurd hc h
      | cons l ls => exact ⟨l, ls, rfl⟩
    obtain ⟨l, ls, hl⟩ := hl
    simp only [Contract.get_consumptions, hl, linesGo, Contract.rrule, hf]

/-- Witness for c4_missing_freq_raises at the concrete conNoFreq. -/
theorem c4_witness :
    Contract.get_consumptions conNoFreq [] 0 (some 5) = .error "TypeError" :=
  (c4_missing_freq_raises conNoFreq [] 0 (some 5) rfl).2 (by decide)

/-- Claim C9: with a usable rrule, check_start_date raises
start_date_not_valid exactly when the start date lies outside
[start_period_date, first occurrence strictly after start_period_date). -/
theorem c9_check_start_date_iff (c : Contract) (r : Rule) (d : ℤ)
    (hr : c.rrule = .ok r) (ha : r.after c.start_period_date = some d) :
    (c.check_start_date = .error "start_date_not_valid" ↔
      ¬(c.start_period_date ≤ c.start_date ∧ c.start_date < d)) := by
  simp only [Contract.check_start_date, hr, ha]
  by_cases h : c.start_period_date ≤ c.start_date ∧ c.start_date < d
  · simp [h]
  · simp [h]

/-- Witness for c9_check_start_date_iff: conMonthly starts on the period
start, inside the first interval, so validation does not raise. -/
theorem c9_witness :
    conMonthly.check_start_date ≠ .error "start_date_not_valid" := by
  have h := c9_check_start_date_iff conMonthly ruleMonthly (mkDate 2020 2 1) rfl (by decide)
  intro he
  exact (h.mp he) (by decide)

/-- Claim C2: the code resumes two days after the last recorded consumption
end (the one-day step is applied twice, lines 240 to 245 of the source),
not one day as specified: with history ending 2020-01-31 the first new
consumption starts 2020-02-02, leaving 2020-02-01 uncovered. -/
theorem c2_resume_gap :
    (Contract.get_consumptions conMonthly dbJan 0 (some (mkDate 2020 4 2))).map
        (fun cs => cs.map (fun x => (x.start_date, x.end_date))) =
      .ok [(mkDate 2020 2 2, mkDate 2020 2 29), (mkDate 2020 3 1, mkDate 2020 3 31)] ∧
    lastConsumptionDate dbJan lineA.id = some (mkDate 2020 1 31) ∧
    mkDate 2020 2 2 ≠ mkDate 2020 1 31 + 1 := by
  refine ⟨rfl, rfl, by decide⟩

/-- Claim C1, counterexample: consuming the monthly contract through
2020-03-31 produces two consumptions, not three: the advanced boundary
2020-04-01 is excluded by the strict between enumeration, so the March
period is not emitted. -/
theorem c1_two_not_three :
    (Contract.consume [conMonthly] [] 0 (some (mkDate 2020 3 31))).map
      (fun cs => cs.length) = .ok 2 ∧ (2 : ℕ) ≠ 3 := by
  refine ⟨rfl, by decide⟩

/-- Claim C1, amended: consuming the monthly contract through 2020-03-31
produces exactly two consumptions for its line, covering January and
February 2020 with contiguous, non-overlapping ranges. -/
theorem c1_amended_consumptions :
    Contract.consume [conMonthly] [] 0 (some (mkDate 2020 3 31)) = .ok [consJan, consFeb] ∧
    consFeb.start_date = consJan.end_date + 1 ∧
    consJan.start_date ≤ consJan.end_date ∧
    consFeb.start_date ≤ consFeb.end_date := by
  refine ⟨rfl, by decide, by decide, by decide⟩

/-- Claim C3, counterexample: get_invoice_date rebuilds the rule from the
frequency alone, so for the interval-2 monthly contract the invoice dates
advance by one month, not two; and with no previous invoice date and no
first-invoice date the first invoice date is the occurrence minus one day
(the consumption end), not the occurrence itself. Expected by the claim:
2020-03-01 (the occurrence) and 2020-04-29 (next interval-2 occurrence
after 2020-02-29); produced: 2020-02-29 and 2020-03-29. -/
theorem c3_invoice_dates_diverge :
    (Contract.get_consumptions conMonthly2 [] 0 (some (mkDate 2020 5 2))).map
        (fun cs => cs.map (fun x => x.invoice_date)) =
      .ok [mkDate 2020 2 29, mkDate 2020 3 29] ∧
    conMonthly2.get_invoice_date (mkDate 2020 2 29) = .ok (mkDate 2020 3 29) ∧
    mkDate 2020 2 29 ≠ mkDate 2020 3 1 ∧
    mkDate 2020 3 29 ≠ mkDate 2020 4 29 := by
  refine ⟨rfl, rfl, by decide, by decide⟩

/-- The bounded occurrence search only returns values strictly after its
reference point. -/
theorem afterGo_gt (r : Rule) (x : ℤ) :
    ∀ (f j : ℕ) (d : ℤ), r.afterGo x f j = some d → x < d := by
  intro f
  induction f with
  | zero => intro j d h; exact Option.noConfusion h
  | succ f ih =>
    intro j d h
    unfold Rule.afterGo at h
    cases ho : r.occ j with
    | some cand =>
      simp only [ho] at h
      by_cases hc : x < cand
      · rw [if_pos hc] at h
        cases h
        exact hc
      · rw [if_neg hc] at h
        exact ih (j + 1) d h
    | none =>
      simp only [ho] at h
      exact ih (j + 1) d h

/-- get_invoice_date only returns dates strictly after the previous invoice
date. -/
theorem get_invoice_date_gt (c : Contract) (liv d : ℤ)
    (h : c.get_invoice_date liv = .ok d) : liv < d := by
  unfold Contract.get_invoice_date at h
  cases hf : c.freq with
  | none =>
    simp only [hf] at h
    exact Except.noConfusion h
  | some f =>
    simp only [hf] at h
    cases ha : Rule.after { freq := f, interval := 1, dtstart := liv } liv with
    | none =>
      simp only [ha] at h
      exact Except.noConfusion h
    | some d0 =>
      simp only [ha] at h
      cases h
      exact afterGo_gt _ _ _ _ _ ha

/-- Invoice-date structure of one generation loop: the first consumption
takes the loaded previous invoice date forward (or the fallback chain), and
every later consumption takes the invoice date of its predecessor forward
through get_invoice_date. -/
theorem consumeLoop_invoice_structure (c : Contract) (line : ContractLine) :
    ∀ (dates : List ℤ) (start : ℤ) (lastInv lastCons : Option ℤ)
      (ws : List Consumption),
      consumeLoop c line dates start lastInv lastCons = .ok ws →
      (∀ w0 liv, ws.head? = some w0 → lastInv = some liv →
        c.get_invoice_date liv = .ok w0.invoice_date) ∧
      (∀ w0, ws.head? = some w0 → lastInv = none →
        w0.invoice_date = c.first_invoice_date.getD w0.end_date) ∧
      List.Chain' (fun a b => c.get_invoice_date a.invoice_date = .ok b.invoice_date) ws := by
  intro dates
  induction dates with
  | nil =>
    intro start lastInv lastCons ws h
    cases h
    exact ⟨by simp, by simp, by simp⟩
  | cons date rest ih =>
    intro start lastInv lastCons ws h
    unfold consumeLoop at h
    cases hli : lastInv with
    | some liv =>
      simp only [hli, loopInvoiceDate] at h
      cases hinv : c.get_invoice_date liv with
      | error e =>
        simp only [hinv] at h
        exact Except.noConfusion h
      | ok inv =>
        simp only [hinv] at h
        cases hrec : consumeLoop c line rest (date - 1 + 1) (some inv) (some (date - 1 + 1)) with
        | error e =>
          simp only [hrec] at h
          exact Except.noConfusion h
        | ok ws2 =>
          simp only [hrec] at h
          cases h
          have hih := ih (date - 1 + 1) (some inv) (some (date - 1 + 1)) ws2 hrec
          refine ⟨?_, ?_, ?_⟩
          · intro w0 liv2 hw0 hsome
            cases hsome
            cases hw0
            exact hinv
          · intro w0 hw0 hnone
            exact Option.noConfusion hnone
          · refine List.chain'_cons'.mpr ⟨?_, hih.2.2⟩
            intro b hb
            exact hih.1 b inv hb rfl
    | none =>
      simp only [hli, loopInvoiceDate] at h
      cases hrec : consumeLoop c line rest (date - 1 + 1)
          (some (c.first_invoice_date.getD (date - 1))) (some (date - 1 + 1)) with
      | error e =>
        simp only [hrec] at h
        exact Except.noConfusion h
      | ok ws2 =>
        simp only [hrec] at h
        cases h
        have hih := ih (date - 1 + 1) (some (c.first_invoice_date.getD (date - 1)))
          (some (date - 1 + 1)) ws2 hrec
        refine ⟨?_, ?_, ?_⟩
        · intro w0 liv2 hw0 hsome
          exact Option.noConfusion hsome
        · intro w0 hw0 _
          cases hw0
          rfl
        · refine List.chain'_cons'.mpr ⟨?_, hih.2.2⟩
          intro b hb
          exact hih.1 b (c.first_invoice_date.getD (date - 1)) hb rfl

/-- Claim C3, amended: for every consumption a line generation run
produces, the invoice date advances from the previous one through
get_invoice_date, which takes the first occurrence of a rule with the
contract frequency but interval 1 (the contract interval is ignored)
strictly after the previous invoice date; the first consumption uses the
loaded previous invoice date (which, through the function-field wiring, is
the maximum recorded end-period date), falling back to the first-invoice
date, else to its own end date (the occurrence minus one day). -/
theorem c3_invoice_date_rule (c : Contract) (r : Rule) (line : ContractLine)
    (db : List Consumption) (e : ℤ) (cs : List Consumption)
    (h : lineConsumptions c r line db e = .ok cs) :
    (∀ w0 liv, cs.head? = some w0 → lastConsumptionInvoiceDate db line.id = some liv →
      c.get_invoice_date liv = .ok w0.invoice_date) ∧
    (∀ w0, cs.head? = some w0 → lastConsumptionInvoiceDate db line.id = none →
      w0.invoice_date = c.first_invoice_date.getD w0.end_date) ∧
    List.Chain' (fun a b => c.get_invoice_date a.invoice_date = .ok b.invoice_date) cs ∧
    (∀ liv d, c.get_invoice_date liv = .ok d → liv < d) := by
  unfold lineConsumptions at h
  have hs := consumeLoop_invoice_structure c line _ _ _ _ _ h
  exact ⟨hs.1, hs.2.1, hs.2.2, fun liv d => get_invoice_date_gt c liv d⟩

/-- Witness for c3_invoice_date_rule on the concrete monthly run: the two
generated consumptions are chained by get_invoice_date. -/
theorem c3_witness :
    lineConsumptions conMonthly ruleMonthly lineA [] (mkDate 2020 4 1) = .ok [consJan, consFeb] ∧
    List.Chain' (fun a b => conMonthly.get_invoice_date a.invoice_date = .ok b.invoice_date)
      [consJan, consFeb] :=
  ⟨rfl, (c3_invoice_date_rule conMonthly ruleMonthly lineA [] (mkDate 2020 4 1)
    [consJan, consFeb] rfl).2.2.1⟩

/-- Claim C7: the invoice line quantity is the ratio of the consumed span
to the full period span, rounded to the unit rounding; for a full-period
consumption the ratio is exactly 1 and, whenever the rounding precision
represents 1 exactly (1 divided by it is an integer, true of every unit
precision in practice), the rounded quantity is the full quantity 1. -/
theorem c7_quantity_ratio (x : ConsRec) (l : InvoiceLine) (a : ℕ)
    (hacc : x.account_revenue = some a)
    (hl : x.get_invoice_line = .ok l)
    (hper : x.end_period_date ≠ x.init_period_date) :
    l.quantity = uomRound (((x.end_date - x.start_date : ℤ) : ℚ) /
        ((x.end_period_date - x.init_period_date : ℤ) : ℚ)) (x.unit_rounding.getD 1) ∧
    (x.end_date - x.start_date = x.end_period_date - x.init_period_date →
      ((1 : ℚ) / x.unit_rounding.getD 1).den = 1 →
      x.unit_rounding.getD 1 ≠ 0 →
      l.quantity = 1) := by
  have hΔp : ((x.end_period_date - x.init_period_date : ℤ) : ℚ) ≠ 0 := by
    rw [Int.cast_ne_zero]
    exact sub_ne_zero.mpr hper
  simp only [ConsRec.get_invoice_line, hacc, Except.ok.injEq] at hl
  subst hl
  have hseconds :
      daySeconds (x.end_date - x.start_date) /
          daySeconds (x.end_period_date - x.init_period_date) =
        ((x.end_date - x.start_date : ℤ) : ℚ) /
          ((x.end_period_date - x.init_period_date : ℤ) : ℚ) := by
    unfold daySeconds
    rw [mul_div_mul_right _ _ (by norm_num : (86400 : ℚ) ≠ 0)]
  refine ⟨by rw [hseconds], ?_⟩
  intro hspan hden hr0
  show uomRound (daySeconds (x.end_date - x.start_date) /
      daySeconds (x.end_period_date - x.init_period_date)) (x.unit_rounding.getD 1) = 1
  rw [hseconds, hspan, div_self hΔp]
  unfold uomRound
  have hq : ((1 : ℚ) / x.unit_rounding.getD 1) =
      ((((1 : ℚ) / x.unit_rounding.getD 1).num : ℤ) : ℚ) :=
    (Rat.coe_int_num_of_den_eq_one hden).symm
  have hround : round ((1 : ℚ) / x.unit_rounding.getD 1) =
      ((1 : ℚ) / x.unit_rounding.getD 1).num := by
    conv_lhs => rw [hq]
    rw [round_intCast]
  rw [hround, ← hq]
  exact div_mul_cancel₀ 1 hr0

/-- Witness for c7_quantity_ratio: the full-period fixture is billed with
quantity exactly 1. -/
theorem c7_witness : lineLinked.quantity = 1 :=
  (c7_quantity_ratio recLinked lineLinked 1 rfl rfl (by decide)).2
    (by decide) (by norm_num [recLinked]) (by norm_num [recLinked])

/-- Claim C6, counterexample: the invoice operation run on a consumption
already linked to invoice line 5 still builds a new line and relinks the
consumption to it. -/
theorem c6_counterexample :
    invoiceOp [recLinked] 100 =
      .ok ([{ recLinked with invoice_line := some 100 }], [[lineLinked]]) ∧
    ({ recLinked with invoice_line := some 100 }).invoice_line ≠ recLinked.invoice_line := by
  exact ⟨rfl, by decide⟩

/-- Claim C6, amended: a consumption field can hold at most one invoice
line and the invoice button is hidden once it is set, but the invoice
classmethod itself has no guard: run on an already linked consumption it
builds a fresh invoice line, attaches it to a new invoice and overwrites
the link. -/
theorem c6_invoice_no_guard (x : ConsRec) (k a n : ℕ) (upd : List ConsRec)
    (invs : List (List InvoiceLine))
    (hlink : x.invoice_line = some k)
    (hacc : x.account_revenue = some a)
    (hop : invoiceOp [x] n = .ok (upd, invs))
    (hne : k ≠ n) :
    invoiceButtonInvisible x = true ∧
    upd = [{ x with invoice_line := some n }] ∧
    some n ≠ x.invoice_line ∧
    ∃ l, x.get_invoice_line = .ok l ∧ invs = [[l]] := by
  have hbtn : invoiceButtonInvisible x = true := by
    rw [invoiceButtonInvisible, hlink]
    rfl
  have hline : x.get_invoice_line = .ok
      { party := x.party, company := x.company, currency := x.currency,
        invoice_type := out_invoice, unit_price := x.unit_price,
        quantity := uomRound (daySeconds (x.end_date - x.start_date) /
          daySeconds (x.end_period_date - x.init_period_date))
          (x.unit_rounding.getD 1) } := by
    simp only [ConsRec.get_invoice_line, hacc]
  simp only [invoiceOp, buildLines, hline, invoiceGrouping, List.insertionSort,
    List.orderedInsert, groupRuns, writeInvoiceLines, List.zip, List.zipWith,
    Except.ok.injEq, Prod.mk.injEq] at hop
  refine ⟨hbtn, hop.1.symm, ?_, ?_⟩
  · rw [hlink]
    intro hsome
    exact hne (Option.some.injEq n k ▸ hsome).symm
  · exact ⟨_, hline, hop.2.symm⟩

/-- Witness for c6_invoice_no_guard at the linked fixture. -/
theorem c6_witness :
    invoiceButtonInvisible recLinked = true ∧
    some 100 ≠ recLinked.invoice_line :=
  have h := c6_invoice_no_guard recLinked 5 1 100
    [{ recLinked with invoice_line := some 100 }] [[lineLinked]]
    rfl rfl rfl (by decide)
  ⟨h.1, h.2.2.1⟩

/-- An aggregate of the empty set only. -/
theorem sqlMax_eq_none : ∀ l : List ℤ, sqlMax l = none → l = [] := by
  intro l h
  cases l with
  | nil => rfl
  | cons a rest =>
    unfold sqlMax at h
    cases hr : sqlMax rest with
    | none => simp only [hr] at h; exact Option.noConfusion h
    | some b => simp only [hr] at h; exact Option.noConfusion h

/-- The aggregate bounds every element. -/
theorem sqlMax_le : ∀ (l : List ℤ) (m : ℤ), sqlMax l = some m → ∀ x ∈ l, x ≤ m := by
  intro l
  induction l with
  | nil => intro m h x hx; exact absurd hx (List.not_mem_nil x)
  | cons a rest ih =>
    intro m h x hx
    unfold sqlMax at h
    cases hr : sqlMax rest with
    | none =>
      simp only [hr] at h
      cases h
      have : rest = [] := sqlMax_eq_none rest hr
      subst this
      rcases List.mem_cons.mp hx with hxa | hxr
      · exact le_of_eq hxa
      · exact absurd hxr (List.not_mem_nil x)
    | some b =>
      simp only [hr] at h
      cases h
      rcases List.mem_cons.mp hx with hxa | hxr
      · exact hxa ▸ le_max_left a b
      · exact le_trans (ih b hr x hxr) (le_max_right a b)

/-- The aggregate value belongs to the list. -/
theorem sqlMax_mem : ∀ (l : List ℤ) (m : ℤ), sqlMax l = some m → m ∈ l := by
  intro l
  induction l with
  | nil => intro m h; exact Option.noConfusion h
  | cons a rest ih =>
    intro m h
    unfold sqlMax at h
    cases hr : sqlMax rest with
    | none =>
      simp only [hr] at h
      cases h
      exact List.mem_cons_self a rest
    | some b =>
      simp only [hr] at h
      cases h
      rcases max_choice a b with hm | hm
      · rw [hm]; exact List.mem_cons_self a rest
      · rw [hm]; exact List.mem_cons_of_mem a (ih b hr)

/-- Membership in a between enumeration: an in-budget occurrence strictly
inside the open interval. -/
theorem between_mem (r : Rule) (a b x : ℤ) :
    x ∈ r.between a b ↔
      ((∃ j, j < r.fuel b ∧ r.occ j = some x) ∧ a < x ∧ x < b) := by
  unfold Rule.between
  simp [List.mem_filter, List.mem_filterMap, List.mem_range, decide_eq_true_eq]

/-- Shape of one loop run: the stored end-period dates are exactly the
occurrences minus one day, in order, and every consumption belongs to the
line. -/
theorem consumeLoop_shape (c : Contract) (line : ContractLine) :
    ∀ (dates : List ℤ) (start : ℤ) (lastInv lastCons : Option ℤ)
      (ws : List Consumption),
      consumeLoop c line dates start lastInv lastCons = .ok ws →
      ws.map (fun w => w.end_period_date) = dates.map (fun d => d - 1) ∧
      ∀ w ∈ ws, w.contract_line = line.id := by
  intro dates
  induction dates with
  | nil =>
    intro start lastInv lastCons ws h
    cases h
    exact ⟨rfl, by simp⟩
  | cons date rest ih =>
    intro start lastInv lastCons ws h
    unfold consumeLoop at h
    cases hid : loopInvoiceDate c lastInv (date - 1) with
    | error e =>
      simp only [hid] at h
      exact Except.noConfusion h
    | ok inv =>
      simp only [hid] at h
      cases hrec : consumeLoop c line rest (date - 1 + 1) (some inv) (some (date - 1 + 1)) with
      | error e =>
        simp only [hrec] at h
        exact Except.noConfusion h
      | ok ws2 =>
        simp only [hrec] at h
        cases h
        have hih := ih (date - 1 + 1) (some inv) (some (date - 1 + 1)) ws2 hrec
        refine ⟨by simp [hih.1], ?_⟩
        intro w hw
        rcases List.mem_cons.mp hw with hwa | hwr
        · rw [hwa]
        · exact hih.2 w hwr

/-- A line generation run only reads the stored consumptions through the
rows of its own line. -/
theorem lineConsumptions_filter_congr (c : Contract) (r : Rule) (line : ContractLine)
    (db db2 : List Consumption) (e : ℤ)
    (hf : db.filter (fun x => x.contract_line == line.id) =
          db2.filter (fun x => x.contract_line == line.id)) :
    lineConsumptions c r line db e = lineConsumptions c r line db2 e := by
  unfold lineConsumptions lastConsumptionInvoiceDate lastConsumptionDate
  rw [hf]

/-- Re-running a line after its output has been stored yields nothing: the
resume point jumps past the last enumerated occurrence, and the strict
between window above it is empty. -/
theorem lineConsumptions_rerun (c : Contract) (r : Rule) (line : ContractLine)
    (db extra : List Consumption) (e : ℤ) (ws : List Consumption)
    (h : lineConsumptions c r line db e = .ok ws)
    (hx : (db ++ extra).filter (fun x => x.contract_line == line.id) =
          db.filter (fun x => x.contract_line == line.id) ++ ws) :
    lineConsumptions c r line (db ++ extra) e = .ok [] := by
  cases hws : ws with
  | nil =>
    subst hws
    have hcongr := lineConsumptions_filter_congr c r line (db ++ extra) db e
      (by rw [hx, List.append_nil])
    rw [hcongr, h]
  | cons w0 wrest =>
    subst hws
    have hshape := consumeLoop_shape c line _ _ _ _ _ h
    set betw1 := r.between (resumeStart c (lastConsumptionDate db line.id)) e with hbetw1
    have hmapeq : (w0 :: wrest).map (fun w => w.end_period_date) =
        betw1.map (fun d => d - 1) := hshape.1
    have hbne : betw1 ≠ [] := by
      intro hnil
      rw [hnil] at hmapeq
      exact List.noConfusion hmapeq
    obtain ⟨M, hM⟩ : ∃ M, sqlMax betw1 = some M := by
      cases hsm : sqlMax betw1 with
      | none => exact absurd (sqlMax_eq_none betw1 hsm) hbne
      | some M => exact ⟨M, rfl⟩
    have hMmem : M ∈ betw1 := sqlMax_mem betw1 M hM
    have hMbound : ∀ x ∈ betw1, x ≤ M := sqlMax_le betw1 M hM
    -- the rerun aggregate
    set F := db.filter (fun x => x.contract_line == line.id) with hF
    obtain ⟨L2, hL2⟩ : ∃ L2,
        sqlMax ((F ++ w0 :: wrest).map (fun x => x.end_period_date)) = some L2 := by
      cases hsm : sqlMax ((F ++ w0 :: wrest).map (fun x => x.end_period_date)) with
      | none =>
        have := sqlMax_eq_none _ hsm
        simp at this
      | some L2 => exact ⟨L2, rfl⟩
    have hL2bound : ∀ x ∈ (F ++ w0 :: wrest).map (fun w => w.end_period_date), x ≤ L2 :=
      sqlMax_le _ L2 hL2
    have hL2M : M - 1 ≤ L2 := by
      apply hL2bound
      rw [List.map_append, hmapeq]
      exact List.mem_append_right _ (List.mem_map.mpr ⟨M, hMmem, rfl⟩)
    have hlcd2 : lastConsumptionDate (db ++ extra) line.id = some L2 := by
      unfold lastConsumptionDate
      rw [hx]
      exact hL2
    -- the rerun window is empty
    have hempty : r.between (resumeStart c (some L2)) e = [] := by
      rw [List.eq_nil_iff_forall_not_mem]
      intro x hx2
      rw [between_mem] at hx2
      obtain ⟨⟨j, hj, hocc⟩, hgt, hlt⟩ := hx2
      have hstart2 : resumeStart c (some L2) = L2 + 2 := rfl
      rw [hstart2] at hgt
      have hx1 : x ∈ betw1 := by
        rw [hbetw1, between_mem]
        refine ⟨⟨j, hj, hocc⟩, ?_, hlt⟩
        cases hlcd : lastConsumptionDate db line.id with
        | none =>
          have hMgt : resumeStart c none < M := by
            have := hMmem
            rw [hbetw1, between_mem, hlcd] at this
            exact this.2.1
          omega
        | some L1 =>
          have hsql : sqlMax (F.map (fun x => x.end_period_date)) = some L1 := by
            have h2 := hlcd
            unfold lastConsumptionDate at h2
            rw [← hF] at h2
            exact h2
          have hL1 : L1 ≤ L2 := by
            apply hL2bound
            rw [List.map_append]
            exact List.mem_append_left _ (sqlMax_mem _ L1 hsql)
          show L1 + 2 < x
          omega
      have hxM : x ≤ M := hMbound x hx1
      omega
    unfold lineConsumptions
    rw [hlcd2]
    show consumeLoop c line (r.between (resumeStart c (some L2)) e) _ _ _ = .ok []
    rw [hempty]
    rfl

/-- Every consumption returned by the line fold belongs to one of the
folded lines. -/
theorem linesGo_line_ids (c : Contract) (db : List Consumption) (e : ℤ) :
    ∀ (ls : List ContractLine) (cs : List Consumption),
      linesGo c db e ls = .ok cs →
      ∀ x ∈ cs, ∃ l ∈ ls, x.contract_line = l.id := by
  intro ls
  induction ls with
  | nil =>
    intro cs h x hx
    cases h
    exact absurd hx (List.not_mem_nil x)
  | cons l rest ih =>
    intro cs h x hx
    unfold linesGo at h
    cases hr : c.rrule with
    | error err =>
      simp only [hr] at h
      exact Except.noConfusion h
    | ok r =>
      simp only [hr] at h
      cases hw : lineConsumptions c r l db e with
      | error err =>
        simp only [hw] at h
        exact Except.noConfusion h
      | ok w =>
        simp only [hw] at h
        cases hrest : linesGo c db e rest with
        | error err =>
          simp only [hrest] at h
          exact Except.noConfusion h
        | ok csR =>
          simp only [hrest] at h
          cases h
          rcases List.mem_append.mp hx with hxl | hxr
          · have hw2 := hw
            unfold lineConsumptions at hw2
            exact ⟨l, List.mem_cons_self l rest, (consumeLoop_shape c l _ _ _ _ w hw2).2 x hxl⟩
          · obtain ⟨l2, hl2, hid⟩ := ih csR hrest x hxr
            exact ⟨l2, List.mem_cons_of_mem l hl2, hid⟩

/-- Re-running the whole line fold after its combined output has been
stored yields no consumption for any line, as long as line ids are unique
and the extra stored rows belong to none of the lines. -/
theorem linesGo_rerun (c : Contract) (e : ℤ) :
    ∀ (ls : List ContractLine) (db pre cs : List Consumption),
      linesGo c db e ls = .ok cs →
      (ls.map (fun l => l.id)).Nodup →
      (∀ z ∈ pre, ∀ l ∈ ls, z.contract_line ≠ l.id) →
      linesGo c (db ++ (pre ++ cs)) e ls = .ok [] := by
  intro ls
  induction ls with
  | nil => intro db pre cs h hnd hpre; rfl
  | cons l rest ih =>
    intro db pre cs h hnd hpre
    unfold linesGo at h
    cases hr : c.rrule with
    | error err =>
      simp only [hr] at h
      exact Except.noConfusion h
    | ok r =>
      simp only [hr] at h
      cases hw : lineConsumptions c r l db e with
      | error err =>
        simp only [hw] at h
        exact Except.noConfusion h
      | ok w =>
        simp only [hw] at h
        cases hrest : linesGo c db e rest with
        | error err =>
          simp only [hrest] at h
          exact Except.noConfusion h
        | ok csR =>
          simp only [hrest] at h
          cases h
          have hwid : ∀ z ∈ w, z.contract_line = l.id := by
            have hw2 := hw
            unfold lineConsumptions at hw2
            exact (consumeLoop_shape c l _ _ _ _ w hw2).2
          have hcsRid : ∀ z ∈ csR, ∃ l2 ∈ rest, z.contract_line = l2.id :=
            linesGo_line_ids c db e rest csR hrest
          have hnd2 : l.id ∉ rest.map (fun l2 => l2.id) ∧
              (rest.map (fun l2 => l2.id)).Nodup := by
            rw [List.map_cons] at hnd
            exact List.nodup_cons.mp hnd
          have hfilter : (db ++ (pre ++ (w ++ csR))).filter
                (fun x => x.contract_line == l.id) =
              db.filter (fun x => x.contract_line == l.id) ++ w := by
            rw [List.filter_append, List.filter_append, List.filter_append]
            have hp : pre.filter (fun x => x.contract_line == l.id) = [] := by
              rw [List.filter_eq_nil_iff]
              intro z hz
              simp only [beq_iff_eq]
              exact hpre z hz l (List.mem_cons_self l rest)
            have hwf : w.filter (fun x => x.contract_line == l.id) = w := by
              rw [List.filter_eq_self]
              intro z hz
              simp only [beq_iff_eq]
              exact hwid z hz
            have hcf : csR.filter (fun x => x.contract_line == l.id) = [] := by
              rw [List.filter_eq_nil_iff]
              intro z hz
              simp only [beq_iff_eq]
              obtain ⟨l2, hl2, hid⟩ := hcsRid z hz
              rw [hid]
              intro heq
              exact hnd2.1 (heq ▸ List.mem_map.mpr ⟨l2, hl2, rfl⟩)
            rw [hp, hwf, hcf, List.append_nil]
            rfl
          have hhead := lineConsumptions_rerun c r l db (pre ++ (w ++ csR)) e w hw hfilter
          have hpre2 : ∀ z ∈ pre ++ w, ∀ l2 ∈ rest, z.contract_line ≠ l2.id := by
            intro z hz l2 hl2
            rcases List.mem_append.mp hz with hzp | hzw
            · exact hpre z hzp l2 (List.mem_cons_of_mem l hl2)
            · rw [hwid z hzw]
              intro heq
              exact hnd2.1 (heq ▸ List.mem_map.mpr ⟨l2, hl2, rfl⟩)
          have htail := ih db (pre ++ w) csR hrest hnd2.2 hpre2
          have hassoc : db ++ ((pre ++ w) ++ csR) = db ++ (pre ++ (w ++ csR)) := by
            simp [List.append_assoc]
          rw [hassoc] at htail
          unfold linesGo
          simp only [hr, hhead, htail]
          rfl

/-- Claim C5: after the consumptions of a first consume run are stored,
re-running consume with the same end date creates nothing at all, so in
particular no consumption whose date range duplicates one already created.
Line ids are assumed unique, as database keys are. -/
theorem c5_idempotent_rerun (c : Contract) (db cs1 cs2 : List Consumption)
    (t1 t2 dt : ℤ)
    (hids : (c.lines.map (fun l => l.id)).Nodup)
    (h1 : Contract.consume [c] db t1 (some dt) = .ok cs1)
    (h2 : Contract.consume [c] (db ++ cs1) t2 (some dt) = .ok cs2) :
    cs2 = [] ∧
    ∀ x ∈ cs2, ∀ y ∈ cs1,
      ¬(x.start_date = y.start_date ∧ x.end_date = y.end_date) := by
  simp only [Contract.consume, consumeGo, Contract.get_consumptions, Option.getD] at h1 h2
  have hmain : cs2 = [] := by
    cases hg1 : linesGo c db (dt + 1) c.lines with
    | error err =>
      simp only [hg1] at h1
      exact Except.noConfusion h1
    | ok a =>
      simp only [hg1] at h1
      injection h1 with h1m
      rw [List.append_nil] at h1m
      cases hg2 : linesGo c (db ++ cs1) (dt + 1) c.lines with
      | error err =>
        simp only [hg2] at h2
        exact Except.noConfusion h2
      | ok a2 =>
        simp only [hg2] at h2
        injection h2 with h2m
        rw [List.append_nil] at h2m
        have hrerun := linesGo_rerun c (dt + 1) c.lines db [] a hg1 hids
          (fun z hz => absurd hz (List.not_mem_nil z))
        rw [List.nil_append, h1m] at hrerun
        rw [hrerun] at hg2
        injection hg2 with hg2m
        rw [← h2m, ← hg2m]
  refine ⟨hmain, ?_⟩
  intro x hx
  rw [hmain] at hx
  exact absurd hx (List.not_mem_nil x)

/-- Witness for c5_idempotent_rerun: the daily fixture consumed through day
2 twice. -/
theorem c5_witness :
    Contract.consume [conDaily] [] 7 (some 2) = .ok cs1Daily ∧
    Contract.consume [conDaily] ([] ++ cs1Daily) 8 (some 2) = .ok [] ∧
    ∀ x ∈ ([] : List Consumption), ∀ y ∈ cs1Daily,
      ¬(x.start_date = y.start_date ∧ x.end_date = y.end_date) :=
  ⟨rfl, rfl,
    (c5_idempotent_rerun conDaily [] cs1Daily [] 7 8 2 (by decide) rfl rfl).2⟩
/-- Lexicographic key comparison is antisymmetric. -/
theorem groupKey_le_antisymm {a b : GroupKey} (h1 : a.le b) (h2 : b.le a) : a = b := by
  cases a
  cases b
  simp only [GroupKey.le] at h1 h2
  simp only [GroupKey.mk.injEq]
  omega

/-- groupby leaves the elements unchanged: concatenating the groups gives
back the input. -/
theorem groupRuns_join {A K : Type} [DecidableEq K] (k : A -> K) :
    forall l : List A, (groupRuns k l).join = l := by
  intro l
  induction l with
  | nil => rfl
  | cons a rest ih =>
    cases hg : groupRuns k rest with
    | nil =>
      have hrest : rest = [] := by
        rw [hg] at ih
        simpa using ih.symm
      unfold groupRuns
      simp only [hg]
      simp [hrest]
    | cons g0 gs =>
      rw [hg] at ih
      unfold groupRuns
      simp only [hg]
      by_cases hk : g0.head?.map k = some (k a)
      · rw [if_pos hk]
        simp only [List.join_cons] at ih ⊢
        rw [List.cons_append, ih]
      · rw [if_neg hk]
        simp only [List.join_cons] at ih ⊢
        simp [ih]

/-- Every group is a nonempty run: its members all share the key of its
head. -/
theorem groupRuns_forall_key {A K : Type} [DecidableEq K] (k : A -> K) :
    forall l : List A, forall g, g ∈ groupRuns k l ->
      ∃ a0, g.head? = some a0 ∧ forall x, x ∈ g -> k x = k a0 := by
  intro l
  induction l with
  | nil => intro g hg; exact absurd hg (List.not_mem_nil g)
  | cons a rest ih =>
    intro g hg
    unfold groupRuns at hg
    cases hgr : groupRuns k rest with
    | nil =>
      simp only [hgr] at hg
      have hga : g = [a] := by simpa using hg
      subst hga
      exact ⟨a, rfl, by simp⟩
    | cons g0 gs =>
      simp only [hgr] at hg
      by_cases hk : g0.head?.map k = some (k a)
      · rw [if_pos hk] at hg
        rcases List.mem_cons.mp hg with hga | hgs
        · subst hga
          obtain ⟨b0, hb0, hball⟩ := ih g0 (by rw [hgr]; exact List.mem_cons_self g0 gs)
          have hka : k b0 = k a := by
            rw [hb0] at hk
            simpa using hk
          refine ⟨a, rfl, ?_⟩
          intro x hx
          rcases List.mem_cons.mp hx with hxa | hxg
          · rw [hxa]
          · rw [hball x hxg, hka]
        · exact ih g (by rw [hgr]; exact List.mem_cons_of_mem g0 hgs)
      · rw [if_neg hk] at hg
        rcases List.mem_cons.mp hg with hga | hgs
        · subst hga
          exact ⟨a, rfl, by simp⟩
        · exact ih g (by rw [hgr]; exact hgs)

/-- On a key-sorted input, distinct groups carry distinct keys. -/
theorem groupRuns_pairwise_ne (l : List (ConsRec × InvoiceLine))
    (hs : List.Pairwise pairKeyLE l) :
    List.Pairwise
      (fun g h => forall x, x ∈ g -> forall y, y ∈ h ->
        group_invoice_key x ≠ group_invoice_key y)
      (groupRuns group_invoice_key l) := by
  induction l with
  | nil => exact List.Pairwise.nil
  | cons a rest ih =>
    have hpw := List.pairwise_cons.mp hs
    have ihg := ih hpw.2
    cases hgr : groupRuns group_invoice_key rest with
    | nil =>
      unfold groupRuns
      simp only [hgr]
      exact List.pairwise_singleton _ _
    | cons g0 gs =>
      rw [hgr] at ihg
      obtain ⟨b0, hb0, hball⟩ := groupRuns_forall_key group_invoice_key rest g0
        (by rw [hgr]; exact List.mem_cons_self g0 gs)
      have hb0g : b0 ∈ g0 := List.mem_of_mem_head? (by rw [hb0]; rfl)
      unfold groupRuns
      simp only [hgr]
      by_cases hk : g0.head?.map group_invoice_key = some (group_invoice_key a)
      · rw [if_pos hk]
        refine List.pairwise_cons.mpr ⟨?_, (List.pairwise_cons.mp ihg).2⟩
        intro h hh x hx y hy
        have hka : group_invoice_key b0 = group_invoice_key a := by
          rw [hb0] at hk
          simpa using hk
        have hne := (List.pairwise_cons.mp ihg).1 h hh
        rcases List.mem_cons.mp hx with hxa | hxg
        · rw [hxa, ← hka]
          exact hne b0 hb0g y hy
        · exact hne x hxg y hy
      · rw [if_neg hk]
        refine List.pairwise_cons.mpr ⟨?_, ihg⟩
        intro h hh x hx y hy
        have hxa : x = a := by simpa using hx
        rw [hxa]
        have hjoin : g0 ++ gs.join = rest := by
          have hj := groupRuns_join group_invoice_key rest
          rw [hgr] at hj
          simpa using hj
        intro heq
        rcases List.mem_cons.mp hh with hhg0 | hhgs
        · subst hhg0
          apply hk
          rw [hb0]
          show some (group_invoice_key b0) = some (group_invoice_key a)
          rw [(hball y hy).symm.trans heq.symm]
        · have hb0rest : b0 ∈ rest := by
            rw [← hjoin]
            exact List.mem_append_left _ hb0g
          have hle1 : pairKeyLE a b0 := hpw.1 b0 hb0rest
          have hyjoin : y ∈ gs.join := List.mem_join.mpr ⟨h, hhgs, hy⟩
          have hle2 : pairKeyLE b0 y := by
            have hpair : List.Pairwise pairKeyLE (g0 ++ gs.join) := by
              rw [hjoin]
              exact hpw.2
            exact (List.pairwise_append.mp hpair).2.2 b0 hb0g y hyjoin
          have hkey2 : (group_invoice_key b0).le (group_invoice_key y) := hle2
          rw [← heq] at hkey2
          have hba : group_invoice_key b0 = group_invoice_key a :=
            groupKey_le_antisymm hkey2 hle1
          apply hk
          rw [hb0]
          show some (group_invoice_key b0) = some (group_invoice_key a)
          rw [hba]

/-- Claim C8: the sort-then-groupby step of the invoice operation attaches
every line to exactly one invoice, every invoice holds only lines of one
grouping key, distinct invoices have distinct keys (one invoice per
distinct tuple), and two lines with the same key always end up alone
together in a single invoice. -/
theorem c8_one_invoice_per_key (ps : List (ConsRec × InvoiceLine)) :
    (invoiceGrouping ps).join.Perm ps ∧
    (forall g, g ∈ invoiceGrouping ps -> ∃ a0, g.head? = some a0 ∧
      forall x, x ∈ g -> group_invoice_key x = group_invoice_key a0) ∧
    List.Pairwise
      (fun g h => forall x, x ∈ g -> forall y, y ∈ h ->
        group_invoice_key x ≠ group_invoice_key y)
      (invoiceGrouping ps) ∧
    (forall a b, group_invoice_key a = group_invoice_key b ->
      ∃ g, invoiceGrouping [a, b] = [g] ∧ g.Perm [a, b]) := by
  refine ⟨?_, ?_, ?_, ?_⟩
  · unfold invoiceGrouping
    rw [groupRuns_join]
    exact List.perm_insertionSort pairKeyLE ps
  · intro g hg
    exact groupRuns_forall_key group_invoice_key _ g hg
  · unfold invoiceGrouping
    exact groupRuns_pairwise_ne _ (List.sorted_insertionSort pairKeyLE ps)
  · intro a b hab
    by_cases hle : pairKeyLE a b
    · have hsort : List.insertionSort pairKeyLE [a, b] = [a, b] := by
        simp [List.insertionSort, List.orderedInsert, hle]
      refine ⟨[a, b], ?_, List.Perm.refl _⟩
      unfold invoiceGrouping
      rw [hsort]
      simp [groupRuns, hab]
    · have hsort : List.insertionSort pairKeyLE [a, b] = [b, a] := by
        simp [List.insertionSort, List.orderedInsert, hle]
      refine ⟨[b, a], ?_, List.Perm.swap a b []⟩
      unfold invoiceGrouping
      rw [hsort]
      simp [groupRuns, hab]

/-- Witness for c8_one_invoice_per_key: two consumptions with the same
grouping tuple are invoiced together on a single invoice. -/
theorem c8_witness :
    ∃ g, invoiceGrouping [(recFree, lineLinked), (recFree2, lineLinked)] = [g] ∧
      g.Perm [(recFree, lineLinked), (recFree2, lineLinked)] :=
  (c8_one_invoice_per_key []).2.2.2 (recFree, lineLinked) (recFree2, lineLinked) rfl

end ContractSpec
